import Mathlib

/-!
Shallow embedding of the osm2pgsql bulk-copy pipeline (src/db-copy.hpp):
the target descriptor, the id-based deletion batcher, the copy/sync/finish
command model, and the copy worker thread together with its bounded FIFO
command queue.  Pure data and the class methods visible in the header are
translated directly from the source; the worker loop and the queue
discipline, whose implementation file is not part of the sources, are
modelled from the specification (each such definition is marked
`Modelled from the spec:` in its doc comment).
-/

namespace DbCopy

/-- Offsets into OSM object id space (osmid_t, a 64-bit integer). -/
abbrev osmid_t := Int

/-- Table information necessary for building SQL queries
(struct db_target_descr_t). -/
structure db_target_descr_t where
  /-- Name of the target table for the copy operation. -/
  name : String
  /-- Comma-separated list of rows for copy operation (when empty: all rows). -/
  rows : String
  /-- Name of id column used when deleting objects. -/
  id : String
deriving DecidableEq

/-- Check if the buffer would use exactly the same copy operation:
`(this == &other) || (name == other.name && rows == other.rows)`.
Pointer identity is modelled as value identity of the two descriptors. -/
def db_target_descr_t.same_copy_target (a b : db_target_descr_t) : Bool :=
  decide (a = b) || (decide (a.name = b.name) && decide (a.rows = b.rows))

/-- Fixed threshold of the deletion batcher (db_deleter_by_id_t::Max_entries). -/
def Max_entries : Nat := 1000000

/-- Deleter which removes objects by id from the database
(class db_deleter_by_id_t).  Holds the vector of objects to delete
before copying. -/
structure db_deleter_by_id_t where
  m_deletables : List osmid_t
deriving DecidableEq

/-- db_deleter_by_id_t::has_data: `!m_deletables.empty()`. -/
def db_deleter_by_id_t.has_data (d : db_deleter_by_id_t) : Bool :=
  !d.m_deletables.isEmpty

/-- db_deleter_by_id_t::add: `m_deletables.push_back(osm_id)`. -/
def db_deleter_by_id_t.add (d : db_deleter_by_id_t) (osm_id : osmid_t) :
    db_deleter_by_id_t :=
  ⟨d.m_deletables ++ [osm_id]⟩

/-- db_deleter_by_id_t.is_full: `m_deletables.size() > Max_entries`. -/
def db_deleter_by_id_t.is_full (d : db_deleter_by_id_t) : Bool :=
  decide (d.m_deletables.length > Max_entries)

/-- Characterization of same_copy_target: the pointer-identity fast path is
subsumed by the name/rows comparison. -/
lemma same_copy_target_iff (a b : db_target_descr_t) :
    a.same_copy_target b = true ↔ (a.name = b.name ∧ a.rows = b.rows) := by
  unfold db_target_descr_t.same_copy_target
  constructor
  · intro h
    rcases Bool.or_eq_true _ _ |>.mp h with h1 | h2
    · cases of_decide_eq_true h1; exact ⟨rfl, rfl⟩
    · rcases Bool.and_eq_true _ _ |>.mp h2 with ⟨hn, hr⟩
      exact ⟨of_decide_eq_true hn, of_decide_eq_true hr⟩
  · rintro ⟨hn, hr⟩
    apply Bool.or_eq_true _ _ |>.mpr
    exact Or.inr (Bool.and_eq_true _ _ |>.mpr ⟨decide_eq_true hn, decide_eq_true hr⟩)

/-- Claim C7: same_copy_target a b is true iff the names and row filters
agree; it is true on identical descriptors, and the id column is
irrelevant to the outcome. -/
theorem same_copy_target_spec :
    (∀ a b : db_target_descr_t,
        a.same_copy_target b = true ↔ (a.name = b.name ∧ a.rows = b.rows)) ∧
    (∀ a : db_target_descr_t, a.same_copy_target a = true) ∧
    (∀ a b : db_target_descr_t, ∀ i j : String,
        db_target_descr_t.same_copy_target ⟨a.name, a.rows, i⟩ ⟨b.name, b.rows, j⟩ =
          a.same_copy_target b) := by
  refine ⟨same_copy_target_iff, fun a => ?_, fun a b i j => ?_⟩
  · exact (same_copy_target_iff a a).mpr ⟨rfl, rfl⟩
  · by_cases h : a.name = b.name ∧ a.rows = b.rows
    · rw [(same_copy_target_iff ⟨a.name, a.rows, i⟩ ⟨b.name, b.rows, j⟩).mpr ⟨h.1, h.2⟩,
        (same_copy_target_iff a b).mpr h]
    · have hl : db_target_descr_t.same_copy_target ⟨a.name, a.rows, i⟩ ⟨b.name, b.rows, j⟩ = false :=
        Bool.eq_false_iff.mpr fun hc =>
          h ((same_copy_target_iff ⟨a.name, a.rows, i⟩ ⟨b.name, b.rows, j⟩).mp hc)
      have hr : a.same_copy_target b = false :=
        Bool.eq_false_iff.mpr fun hc => h ((same_copy_target_iff _ _).mp hc)
      rw [hl, hr]

/-- Witness for same_copy_target_spec: two descriptors for the same table
and filter but different id columns are the same copy target. -/
theorem same_copy_target_spec_witness :
    db_target_descr_t.same_copy_target ⟨(r"t"), (r""), (r"a")⟩ ⟨(r"t"), (r""), (r"b")⟩ =
      true :=
  (same_copy_target_spec.1 ⟨(r"t"), (r""), (r"a")⟩ ⟨(r"t"), (r""), (r"b")⟩).mpr ⟨rfl, rfl⟩

/-- Claim C8: the deletion batcher's capacity is advisory: is_full is
true exactly when more than 1000000 entries are pending, add always
appends the id (even to a full batch) and never fails. -/
theorem deleter_capacity_advisory :
    (∀ d : db_deleter_by_id_t,
        d.is_full = true ↔ d.m_deletables.length > 1000000) ∧
    (∀ (d : db_deleter_by_id_t) (i : osmid_t),
        (d.add i).m_deletables = d.m_deletables ++ [i]) ∧
    (∀ (d : db_deleter_by_id_t) (i : osmid_t), d.is_full = true →
        (d.add i).m_deletables.length = d.m_deletables.length + 1) := by
  refine ⟨fun d => ?_, fun d i => rfl, fun d i _ => ?_⟩
  · simp [db_deleter_by_id_t.is_full, Max_entries]
  · simp [db_deleter_by_id_t.add]

/-- Witness for deleter_capacity_advisory: a batch of 1000001 pending ids is
full and still accepts a further id. -/
theorem deleter_capacity_advisory_witness :
    (db_deleter_by_id_t.mk (List.replicate 1000001 (0 : Int))).is_full = true ∧
    ((db_deleter_by_id_t.mk (List.replicate 1000001 (0 : Int))).add 5).m_deletables.length =
      (db_deleter_by_id_t.mk (List.replicate 1000001 (0 : Int))).m_deletables.length + 1 := by
  have hfull : (db_deleter_by_id_t.mk (List.replicate 1000001 (0 : Int))).is_full = true := by
    show decide ((List.replicate 1000001 (0 : Int)).length > Max_entries) = true
    rw [List.length_replicate]
    decide
  exact ⟨hfull, deleter_capacity_advisory.2.2 _ 5 hfull⟩

/-- Connection-level operation issued by the worker against the database
connection (the out-of-scope pg_conn_t collaborator).  The worker only
records which calls it makes and in which order. -/
inductive ConnOp where
  | begin_copy (table : String) (rows : String)
  | write (bytes : String)
  | end_copy
  | delete_rows (table : String) (column : String) (ids : List osmid_t)
  | disconnect
deriving DecidableEq

/-- Size of a single buffer with COPY data (db_cmd_copy_t::Max_buf_size). -/
def Max_buf_size : Nat := 10 * 1024 * 1024

/-- Maximum length of the queue with COPY data (db_cmd_copy_t::Max_buffers). -/
def Max_buffers : Nat := 10

/-- A Cmd_copy command: db_cmd_copy_delete_t instantiated with
db_deleter_by_id_t, the one deleter implementation, carrying the shared
target descriptor, the serialized copy buffer and the deletion batch. -/
structure CopyCmd where
  target : db_target_descr_t
  buffer : String
  m_deleter : db_deleter_by_id_t
deriving DecidableEq

/-- db_cmd_copy_delete_t::has_deletables: `m_deleter.has_data()`. -/
def CopyCmd.has_deletables (c : CopyCmd) : Bool :=
  c.m_deleter.has_data

/-- db_cmd_copy_delete_t::is_full:
`(buffer.size() > Max_buf_size - 100) || m_deleter.is_full()`. -/
def CopyCmd.is_full (c : CopyCmd) : Bool :=
  decide (c.buffer.length > Max_buf_size - 100) || c.m_deleter.is_full

/-- Appending serialized row data to the copy buffer (std::string append);
the command type itself never rejects an append. -/
def CopyCmd.append_data (c : CopyCmd) (s : String) : CopyCmd :=
  { c with buffer := c.buffer ++ s }

/-- db_cmd_copy_delete_t::delete_data: when the deleter has data it makes
the single connection call `m_deleter.delete_rows(target->name, target->id,
conn)`, otherwise it does nothing.  The result is the list of connection
calls issued. -/
def CopyCmd.delete_data (c : CopyCmd) : List ConnOp :=
  if c.m_deleter.has_data then
    [ConnOp.delete_rows c.target.name c.target.id c.m_deleter.m_deletables]
  else []

/-- Claim C9: delete_data issues exactly one batched delete_rows call with
the target table name and id column iff the batch is non-empty, and is a
no-op issuing no connection call when the batch is empty. -/
theorem delete_data_guarded :
    (∀ c : CopyCmd, c.m_deleter.has_data = true ↔ c.m_deleter.m_deletables ≠ []) ∧
    (∀ c : CopyCmd, c.m_deleter.has_data = true →
        c.delete_data =
          [ConnOp.delete_rows c.target.name c.target.id c.m_deleter.m_deletables]) ∧
    (∀ c : CopyCmd, c.m_deleter.has_data = false → c.delete_data = []) := by
  refine ⟨fun c => ?_, fun c h => ?_, fun c h => ?_⟩
  · simp [db_deleter_by_id_t.has_data, List.isEmpty_iff]
  · simp [CopyCmd.delete_data, h]
  · simp [CopyCmd.delete_data, h]

/-- Witness for delete_data_guarded at a command with one pending deletion
and at a command with none. -/
theorem delete_data_guarded_witness :
    (CopyCmd.mk ⟨(r"t"), (r""), (r"osm_id")⟩ (r"")
        (db_deleter_by_id_t.mk [42])).delete_data =
      [ConnOp.delete_rows (r"t") (r"osm_id") [42]] ∧
    (CopyCmd.mk ⟨(r"t"), (r""), (r"osm_id")⟩ (r"")
        (db_deleter_by_id_t.mk [])).delete_data = [] :=
  ⟨delete_data_guarded.2.1 _ (by decide),
   delete_data_guarded.2.2 _ (by decide)⟩

/-- Claim C10: the copy command's is_full is true iff the buffer size
exceeds Max_buf_size - 100 bytes or the attached deleter is full, and the
signal is advisory: appending to the buffer always succeeds. -/
theorem copy_cmd_is_full_spec :
    (∀ c : CopyCmd, c.is_full = true ↔
        (c.buffer.length > 10 * 1024 * 1024 - 100 ∨ c.m_deleter.is_full = true)) ∧
    (∀ (c : CopyCmd) (s : String), (c.append_data s).buffer = c.buffer ++ s) ∧
    (∀ (c : CopyCmd) (s : String), c.is_full = true →
        (c.append_data s).buffer = c.buffer ++ s) := by
  refine ⟨fun c => ?_, fun c s => rfl, fun c s _ => rfl⟩
  simp [CopyCmd.is_full, Max_buf_size, Bool.or_eq_true]

/-- Witness for copy_cmd_is_full_spec: a command whose deleter holds
1000001 ids is full and still accepts an append. -/
theorem copy_cmd_is_full_spec_witness :
    (CopyCmd.mk ⟨(r"t"), (r""), (r"osm_id")⟩ (r"row")
        (db_deleter_by_id_t.mk (List.replicate 1000001 (0 : Int)))).is_full = true ∧
    ((CopyCmd.mk ⟨(r"t"), (r""), (r"osm_id")⟩ (r"row")
        (db_deleter_by_id_t.mk (List.replicate 1000001 (0 : Int)))).append_data
          (r"more")).buffer =
      (CopyCmd.mk ⟨(r"t"), (r""), (r"osm_id")⟩ (r"row")
        (db_deleter_by_id_t.mk (List.replicate 1000001 (0 : Int)))).buffer ++ (r"more") := by
  have hfull : (db_deleter_by_id_t.mk (List.replicate 1000001 (0 : Int))).is_full = true := by
    show decide ((List.replicate 1000001 (0 : Int)).length > Max_entries) = true
    rw [List.length_replicate]
    decide
  refine ⟨(copy_cmd_is_full_spec.1 _).mpr (Or.inr hfull), ?_⟩
  exact copy_cmd_is_full_spec.2.2 _ (r"more")
    ((copy_cmd_is_full_spec.1 _).mpr (Or.inr hfull))

/-- A command for the copy thread to execute: db_cmd_t with its three
subclasses as a tagged variant (Cmd_copy, Cmd_sync, Cmd_finish).  The Sync
barrier payload (a std::promise) is represented by the sync_done event the
worker emits when fulfilling it. -/
inductive db_cmd_t where
  | copy (c : CopyCmd)
  | sync
  | finish
deriving DecidableEq

/-- Modelled from the spec: the worker's handling of one Copy command
(db_copy_thread_t::write_to_db, whose implementation file is not among the
sources).  Given the target of the currently open copy stream (m_inflight):
when the stream targets the same copy target and there are no deletions the
buffer is written into the open stream; otherwise any open stream is ended
first, the command's deletions are flushed, a stream for the command's
target is started and the buffer written.  Returns the connection calls
made and the new inflight target. -/
def copy_segment (fl : Option db_target_descr_t) (c : CopyCmd) :
    List ConnOp × Option db_target_descr_t :=
  match fl with
  | some t =>
      if t.same_copy_target c.target then
        if c.has_deletables then
          (ConnOp.end_copy :: c.delete_data ++
            [ConnOp.begin_copy c.target.name c.target.rows, ConnOp.write c.buffer],
           some c.target)
        else
          ([ConnOp.write c.buffer], some t)
      else
        (ConnOp.end_copy :: c.delete_data ++
          [ConnOp.begin_copy c.target.name c.target.rows, ConnOp.write c.buffer],
         some c.target)
  | none =>
      (c.delete_data ++
        [ConnOp.begin_copy c.target.name c.target.rows, ConnOp.write c.buffer],
       some c.target)

/-- Observable worker event: a connection call, or the fulfilment of a Sync
command's barrier. -/
inductive Event where
  | op (o : ConnOp)
  | sync_done
deriving DecidableEq

/-- Result of running the worker loop on a command sequence: the events in
order, the inflight target left behind, and whether the loop exited through
a Finish command. -/
structure RunResult where
  trace : List Event
  inflight : Option db_target_descr_t
  finished : Bool
deriving DecidableEq

/-- Modelled from the spec: the worker loop
(db_copy_thread_t::worker_thread) applied to the commands in FIFO order.
Copy commands are written to the database via copy_segment, Sync commands
fulfil their barrier with no connection call and no state change, and
Finish ends any open stream, disconnects and exits the loop. -/
def run_from (fl : Option db_target_descr_t) : List db_cmd_t → RunResult
  | [] => ⟨[], fl, false⟩
  | db_cmd_t.copy c :: rest =>
      let r := run_from (copy_segment fl c).2 rest
      ⟨((copy_segment fl c).1).map Event.op ++ r.trace, r.inflight, r.finished⟩
  | db_cmd_t.sync :: rest =>
      let r := run_from fl rest
      ⟨Event.sync_done :: r.trace, r.inflight, r.finished⟩
  | db_cmd_t.finish :: _ =>
      ⟨((if fl.isSome then [ConnOp.end_copy] else []) ++
          [ConnOp.disconnect]).map Event.op, none, true⟩

/-- Database-state-changing action, the abstract effect of the connection
calls: bytes copied into a table through an open stream, or rows deleted. -/
inductive Action where
  | copied (table : String) (bytes : String)
  | deleted (table : String) (column : String) (ids : List osmid_t)
deriving DecidableEq

/-- Connection calls of an event trace, in order. -/
def conn_ops : List Event → List ConnOp
  | [] => []
  | Event.op o :: rest => o :: conn_ops rest
  | Event.sync_done :: rest => conn_ops rest

/-- Table of the copy stream left open after the given calls, starting from
stream s (the connection's view of the open COPY operation). -/
def stream_after (s : Option String) : List ConnOp → Option String
  | [] => s
  | ConnOp.begin_copy t _ :: rest => stream_after (some t) rest
  | ConnOp.end_copy :: rest => stream_after none rest
  | ConnOp.write _ :: rest => stream_after s rest
  | ConnOp.delete_rows _ _ _ :: rest => stream_after s rest
  | ConnOp.disconnect :: rest => stream_after s rest

/-- Interpretation of the connection calls as database actions: a write
copies its bytes into the table of the open stream, delete_rows deletes its
ids; begin/end/disconnect change no data. -/
def db_actions (s : Option String) : List ConnOp → List Action
  | [] => []
  | ConnOp.begin_copy t _ :: rest => db_actions (some t) rest
  | ConnOp.end_copy :: rest => db_actions none rest
  | ConnOp.write b :: rest =>
      (match s with | some t => [Action.copied t b] | none => []) ++ db_actions s rest
  | ConnOp.delete_rows t c ids :: rest => Action.deleted t c ids :: db_actions s rest
  | ConnOp.disconnect :: rest => db_actions s rest

/-- Actions a single command prescribes when applied directly: its
deletions first, then its buffer copied into its target table; Sync and
Finish change no data. -/
def cmd_actions : db_cmd_t → List Action
  | db_cmd_t.copy c =>
      (if c.m_deleter.has_data then
        [Action.deleted c.target.name c.target.id c.m_deleter.m_deletables]
       else []) ++ [Action.copied c.target.name c.buffer]
  | db_cmd_t.sync => []
  | db_cmd_t.finish => []

/-- Actions of a command sequence applied one by one in push order. -/
def push_order_actions : List db_cmd_t → List Action
  | [] => []
  | c :: rest => cmd_actions c ++ push_order_actions rest

lemma conn_ops_append (xs ys : List Event) :
    conn_ops (xs ++ ys) = conn_ops xs ++ conn_ops ys := by
  induction xs with
  | nil => rfl
  | cons e rest ih => cases e <;> simp [conn_ops, ih]

lemma conn_ops_map_op (l : List ConnOp) : conn_ops (l.map Event.op) = l := by
  induction l with
  | nil => rfl
  | cons o rest ih => simp [conn_ops, ih]

lemma stream_after_append (xs ys : List ConnOp) (s : Option String) :
    stream_after s (xs ++ ys) = stream_after (stream_after s xs) ys := by
  induction xs generalizing s with
  | nil => rfl
  | cons o rest ih => cases o <;> simp [stream_after, ih]

lemma db_actions_append (xs ys : List ConnOp) (s : Option String) :
    db_actions s (xs ++ ys) = db_actions s xs ++ db_actions (stream_after s xs) ys := by
  induction xs generalizing s with
  | nil => rfl
  | cons o rest ih => cases o <;> simp [db_actions, stream_after, ih]

lemma copy_segment_actions (fl : Option db_target_descr_t) (c : CopyCmd) :
    db_actions (fl.map db_target_descr_t.name) (copy_segment fl c).1 =
      cmd_actions (db_cmd_t.copy c) := by
  cases fl with
  | none =>
      cases hd : c.m_deleter.has_data <;>
        simp [copy_segment, CopyCmd.delete_data, CopyCmd.has_deletables, hd,
          db_actions, cmd_actions]
  | some t =>
      cases hst : t.same_copy_target c.target with
      | true =>
          cases hd : c.m_deleter.has_data with
          | true =>
              simp [copy_segment, CopyCmd.delete_data, CopyCmd.has_deletables, hst, hd,
                db_actions, cmd_actions]
          | false =>
              have hn : t.name = c.target.name := ((same_copy_target_iff t c.target).mp hst).1
              simp [copy_segment, CopyCmd.has_deletables, hst, hd, db_actions,
                cmd_actions, hn]
      | false =>
          cases hd : c.m_deleter.has_data <;>
            simp [copy_segment, CopyCmd.delete_data, CopyCmd.has_deletables, hst, hd,
              db_actions, cmd_actions]

lemma copy_segment_stream (fl : Option db_target_descr_t) (c : CopyCmd) :
    stream_after (fl.map db_target_descr_t.name) (copy_segment fl c).1 =
      ((copy_segment fl c).2).map db_target_descr_t.name := by
  cases fl with
  | none =>
      cases hd : c.m_deleter.has_data <;>
        simp [copy_segment, CopyCmd.delete_data, CopyCmd.has_deletables, hd, stream_after]
  | some t =>
      cases hst : t.same_copy_target c.target <;>
        cases hd : c.m_deleter.has_data <;>
          simp [copy_segment, CopyCmd.delete_data, CopyCmd.has_deletables, hst, hd,
            stream_after]

/-- Applying the worker loop realizes exactly the push-order actions of the
commands, independently of the stream-merging decisions. -/
lemma run_from_actions (cmds : List db_cmd_t) (fl : Option db_target_descr_t)
    (h : db_cmd_t.finish ∉ cmds) :
    db_actions (fl.map db_target_descr_t.name) (conn_ops (run_from fl cmds).trace) =
      push_order_actions cmds := by
  induction cmds generalizing fl with
  | nil => rfl
  | cons cmd rest ih =>
      rw [List.mem_cons] at h
      push_neg at h
      cases cmd with
      | copy c =>
          show db_actions _ (conn_ops (((copy_segment fl c).1).map Event.op ++
            (run_from (copy_segment fl c).2 rest).trace)) = _
          rw [conn_ops_append, conn_ops_map_op, db_actions_append,
            copy_segment_actions, copy_segment_stream, ih _ h.2]
          rfl
      | sync =>
          show db_actions _ (conn_ops (Event.sync_done ::
            (run_from fl rest).trace)) = _
          rw [show conn_ops (Event.sync_done :: (run_from fl rest).trace) =
            conn_ops (run_from fl rest).trace from rfl, ih _ h.2]
          rfl
      | finish => exact absurd rfl h.1

/-- Modelled from the spec: the shared worker queue (m_worker_queue) viewed
as a transition system: the commands every producer has pushed so far (in
the serialized order of the push calls), the commands still queued, and the
commands the worker has already popped, front first. -/
structure QueueSys where
  pushed : List db_cmd_t
  queued : List db_cmd_t
  popped : List db_cmd_t
deriving DecidableEq

/-- One interaction with the queue: a producer push or a worker pop. -/
inductive QEvent where
  | push (c : db_cmd_t)
  | pop
deriving DecidableEq

/-- Modelled from the spec: one serialized queue interaction under the
queue mutex: a push appends at the back, a pop removes the front (a pop of
an empty queue blocks, leaving the state unchanged). -/
def qstep (s : QueueSys) : QEvent → QueueSys
  | QEvent.push c => ⟨s.pushed ++ [c], s.queued ++ [c], s.popped⟩
  | QEvent.pop =>
      match s.queued with
      | [] => s
      | c :: rest => ⟨s.pushed, rest, s.popped ++ [c]⟩

/-- Queue contents after a serialized sequence of interactions, starting
empty. -/
def qrun (evs : List QEvent) : QueueSys :=
  evs.foldl qstep ⟨[], [], []⟩

lemma qstep_fifo (s : QueueSys) (ev : QEvent)
    (h : s.popped ++ s.queued = s.pushed) :
    (qstep s ev).popped ++ (qstep s ev).queued = (qstep s ev).pushed := by
  cases ev with
  | push c => simp [qstep, ← h]
  | pop =>
      cases hq : s.queued with
      | nil => simpa [qstep, hq] using h
      | cons c rest => simp [qstep, hq, ← h]

lemma qrun_fifo_from (evs : List QEvent) (s : QueueSys)
    (h : s.popped ++ s.queued = s.pushed) :
    (evs.foldl qstep s).popped ++ (evs.foldl qstep s).queued =
      (evs.foldl qstep s).pushed := by
  induction evs generalizing s with
  | nil => exact h
  | cons ev rest ih => exact ih _ (qstep_fifo s ev h)

/-- Claim C1: strict FIFO application.  First: in every serialized
interaction sequence with the queue, the commands the worker has popped,
followed by the commands still queued, are exactly the commands pushed, in
push order — the worker receives and applies commands in exactly the
producers' push order.  Second: the database actions realized by the worker
loop equal the push-order application of each Copy command's deletions and
buffer, regardless of the worker-side stream-merging optimization. -/
theorem fifo_application :
    (∀ evs : List QEvent,
        (qrun evs).popped ++ (qrun evs).queued = (qrun evs).pushed) ∧
    (∀ cmds : List db_cmd_t, db_cmd_t.finish ∉ cmds →
        db_actions none (conn_ops (run_from none cmds).trace) =
          push_order_actions cmds) := by
  constructor
  · intro evs
    exact qrun_fifo_from evs ⟨[], [], []⟩ rfl
  · intro cmds h
    exact run_from_actions cmds none h

/-- Witness for fifo_application: two copies into the same table and a
sync, interleaved with pops, end as push-order actions. -/
theorem fifo_application_witness :
    ((qrun [QEvent.push (db_cmd_t.copy ⟨⟨(r"t"), (r""), (r"osm_id")⟩, (r"b1"), ⟨[]⟩⟩),
        QEvent.pop,
        QEvent.push db_cmd_t.sync]).popped ++
      (qrun [QEvent.push (db_cmd_t.copy ⟨⟨(r"t"), (r""), (r"osm_id")⟩, (r"b1"), ⟨[]⟩⟩),
        QEvent.pop,
        QEvent.push db_cmd_t.sync]).queued =
      (qrun [QEvent.push (db_cmd_t.copy ⟨⟨(r"t"), (r""), (r"osm_id")⟩, (r"b1"), ⟨[]⟩⟩),
        QEvent.pop,
        QEvent.push db_cmd_t.sync]).pushed) ∧
    db_actions none (conn_ops (run_from none
        [db_cmd_t.copy ⟨⟨(r"t"), (r""), (r"osm_id")⟩, (r"b1"), ⟨[42]⟩⟩,
         db_cmd_t.copy ⟨⟨(r"t"), (r""), (r"osm_id")⟩, (r"b2"), ⟨[]⟩⟩,
         db_cmd_t.sync]).trace) =
      push_order_actions
        [db_cmd_t.copy ⟨⟨(r"t"), (r""), (r"osm_id")⟩, (r"b1"), ⟨[42]⟩⟩,
         db_cmd_t.copy ⟨⟨(r"t"), (r""), (r"osm_id")⟩, (r"b2"), ⟨[]⟩⟩,
         db_cmd_t.sync] :=
  ⟨fifo_application.1 _, fifo_application.2 _ (by decide)⟩

/-- Claim C2: the deletions attached to a Copy command are flushed to the
connection strictly before the command's buffer is written, in every worker
state: any open stream is ended (also when it targets the same table), then
the single delete_rows call is made, then the stream is (re)opened and only
then the buffer written. -/
theorem deletions_before_write (fl : Option db_target_descr_t) (c : CopyCmd)
    (h : c.has_deletables = true) :
    (copy_segment fl c).1 =
      (if fl.isSome then [ConnOp.end_copy] else []) ++
        ConnOp.delete_rows c.target.name c.target.id c.m_deleter.m_deletables ::
          [ConnOp.begin_copy c.target.name c.target.rows, ConnOp.write c.buffer] := by
  have hd : c.m_deleter.has_data = true := h
  cases fl with
  | none => simp [copy_segment, CopyCmd.delete_data, hd]
  | some t =>
      cases hst : t.same_copy_target c.target <;>
        simp [copy_segment, CopyCmd.delete_data, CopyCmd.has_deletables, hst, hd]

/-- Witness for deletions_before_write: a command with a pending deletion
against the very table the open stream targets. -/
theorem deletions_before_write_witness :
    (copy_segment (some ⟨(r"t"), (r""), (r"osm_id")⟩)
        ⟨⟨(r"t"), (r""), (r"osm_id")⟩, (r"b1"), ⟨[42]⟩⟩).1 =
      [ConnOp.end_copy,
       ConnOp.delete_rows (r"t") (r"osm_id") [42],
       ConnOp.begin_copy (r"t") (r""),
       ConnOp.write (r"b1")] :=
  deletions_before_write (some ⟨(r"t"), (r""), (r"osm_id")⟩)
    ⟨⟨(r"t"), (r""), (r"osm_id")⟩, (r"b1"), ⟨[42]⟩⟩ (by decide)

/-- Running the worker loop on xs ++ ys, when xs holds no Finish, is
running it on xs and continuing on ys from the state xs left behind. -/
lemma run_from_append (xs ys : List db_cmd_t) (fl : Option db_target_descr_t)
    (h : db_cmd_t.finish ∉ xs) :
    run_from fl (xs ++ ys) =
      ⟨(run_from fl xs).trace ++ (run_from (run_from fl xs).inflight ys).trace,
       (run_from (run_from fl xs).inflight ys).inflight,
       (run_from (run_from fl xs).inflight ys).finished⟩ := by
  induction xs generalizing fl with
  | nil => rfl
  | cons cmd rest ih =>
      rw [List.mem_cons] at h
      push_neg at h
      cases cmd with
      | copy c =>
          simp only [List.cons_append, run_from, List.append_eq]
          rw [ih _ h.2]
          simp [List.append_assoc]
      | sync =>
          simp only [List.cons_append, run_from, List.append_eq]
          rw [ih _ h.2]
      | finish => exact absurd rfl h.1

/-- The shutdown calls of a Finish command change no database data. -/
lemma db_actions_shutdown (s : Option String) (b : Bool) :
    db_actions s ((if b then [ConnOp.end_copy] else []) ++ [ConnOp.disconnect]) = [] := by
  cases b <;> simp [db_actions]

/-- Claim C3: sync_and_wait is a completion barrier.  The worker fulfils a
Sync command's barrier immediately after the trace of the commands pushed
strictly before it — so sync_and_wait, which blocks on that barrier, cannot
return before those commands are fully applied — the fulfilment makes no
connection call, the continuation runs from the unchanged inflight stream,
and at the barrier every earlier command's deletions and buffer have been
applied in push order. -/
theorem sync_barrier (pre post : List db_cmd_t) (h : db_cmd_t.finish ∉ pre) :
    (run_from none (pre ++ db_cmd_t.sync :: post)).trace =
      (run_from none pre).trace ++ Event.sync_done ::
        (run_from (run_from none pre).inflight post).trace ∧
    (run_from none (pre ++ [db_cmd_t.sync])).inflight = (run_from none pre).inflight ∧
    db_actions none (conn_ops (run_from none pre).trace) = push_order_actions pre := by
  refine ⟨?_, ?_, run_from_actions pre none h⟩
  · rw [run_from_append pre (db_cmd_t.sync :: post) none h]
    simp [run_from]
  · rw [run_from_append pre [db_cmd_t.sync] none h]
    simp [run_from]

/-- Witness for sync_barrier: one copy command before the sync. -/
theorem sync_barrier_witness :
    (run_from none ([db_cmd_t.copy ⟨⟨(r"t"), (r""), (r"osm_id")⟩, (r"b1"), ⟨[42]⟩⟩] ++
        db_cmd_t.sync :: [])).trace =
      (run_from none [db_cmd_t.copy ⟨⟨(r"t"), (r""), (r"osm_id")⟩, (r"b1"), ⟨[42]⟩⟩]).trace ++
        Event.sync_done ::
          (run_from (run_from none
              [db_cmd_t.copy ⟨⟨(r"t"), (r""), (r"osm_id")⟩, (r"b1"), ⟨[42]⟩⟩]).inflight
            []).trace :=
  (sync_barrier [db_cmd_t.copy ⟨⟨(r"t"), (r""), (r"osm_id")⟩, (r"b1"), ⟨[42]⟩⟩] []
    (by decide)).1

/-- Claim C4: finish drains and joins.  When the worker reaches the Finish
command, its trace is exactly the trace of every command pushed before it
(none lost), followed by ending any open stream and disconnecting; the loop
exits (join semantics: finish() returns only after this point) with no
stream open, and the data applied is exactly the push-order application of
the commands before Finish. -/
theorem finish_drains (pre post : List db_cmd_t) (h : db_cmd_t.finish ∉ pre) :
    (run_from none (pre ++ db_cmd_t.finish :: post)).trace =
      (run_from none pre).trace ++
        ((if (run_from none pre).inflight.isSome then [ConnOp.end_copy] else []) ++
          [ConnOp.disconnect]).map Event.op ∧
    (run_from none (pre ++ db_cmd_t.finish :: post)).finished = true ∧
    (run_from none (pre ++ db_cmd_t.finish :: post)).inflight = none ∧
    db_actions none
        (conn_ops (run_from none (pre ++ db_cmd_t.finish :: post)).trace) =
      push_order_actions pre := by
  have he := run_from_append pre (db_cmd_t.finish :: post) none h
  have hact : db_actions none (conn_ops (run_from none pre).trace) =
      push_order_actions pre := run_from_actions pre none h
  have h1 : (run_from none (pre ++ db_cmd_t.finish :: post)).trace =
      (run_from none pre).trace ++
        ((if (run_from none pre).inflight.isSome then [ConnOp.end_copy] else []) ++
          [ConnOp.disconnect]).map Event.op := by
    rw [he]
    simp [run_from]
  refine ⟨h1, ?_, ?_, ?_⟩
  · rw [he]
    simp [run_from]
  · rw [he]
    simp [run_from]
  · rw [h1, conn_ops_append, conn_ops_map_op, db_actions_append, hact,
      db_actions_shutdown]
    exact List.append_nil _

/-- Witness for finish_drains: one copy command before the finish; a
command after the finish is never applied. -/
theorem finish_drains_witness :
    (run_from none ([db_cmd_t.copy ⟨⟨(r"t"), (r""), (r"osm_id")⟩, (r"b1"), ⟨[]⟩⟩] ++
        db_cmd_t.finish :: [db_cmd_t.sync])).finished = true :=
  (finish_drains [db_cmd_t.copy ⟨⟨(r"t"), (r""), (r"osm_id")⟩, (r"b1"), ⟨[]⟩⟩]
    [db_cmd_t.sync] (by decide)).2.1

/-- Number of Copy commands held in the queue: only these count against
the queue capacity. -/
def copy_count (q : List db_cmd_t) : Nat :=
  (q.filter fun c => match c with | db_cmd_t.copy _ => true | _ => false).length

/-- Modelled from the spec: add_buffer blocks the calling producer exactly
while the queue holds at least Max_buffers Copy commands; Sync and Finish
commands are never blocked by fullness. -/
def push_blocked (q : List db_cmd_t) (c : db_cmd_t) : Bool :=
  match c with
  | db_cmd_t.copy _ => decide (copy_count q ≥ Max_buffers)
  | db_cmd_t.sync => false
  | db_cmd_t.finish => false

/-- Modelled from the spec: the capacity-guarded queue: a blocked push
waits, leaving the queue unchanged until capacity frees; an accepted push
appends at the back; a worker pop removes the front. -/
def gstep (q : List db_cmd_t) : QEvent → List db_cmd_t
  | QEvent.push c => if push_blocked q c then q else q ++ [c]
  | QEvent.pop => q.tail

/-- Guarded queue contents after a sequence of interactions, starting
empty. -/
def grun (evs : List QEvent) : List db_cmd_t :=
  evs.foldl gstep []

lemma copy_count_cons_copy (c : CopyCmd) (q : List db_cmd_t) :
    copy_count (db_cmd_t.copy c :: q) = copy_count q + 1 := by
  simp [copy_count, List.filter]

lemma copy_count_append_copy (q : List db_cmd_t) (c : CopyCmd) :
    copy_count (q ++ [db_cmd_t.copy c]) = copy_count q + 1 := by
  simp [copy_count, List.filter_append, List.filter]

lemma copy_count_tail_le (q : List db_cmd_t) :
    copy_count q.tail ≤ copy_count q := by
  cases q with
  | nil => exact Nat.le_refl _
  | cons c rest =>
      cases c with
      | copy cc => rw [List.tail_cons, copy_count_cons_copy]; exact Nat.le_succ _
      | sync => rw [List.tail_cons]; simp [copy_count, List.filter]
      | finish => rw [List.tail_cons]; simp [copy_count, List.filter]

lemma gstep_count_le (q : List db_cmd_t) (ev : QEvent)
    (h : copy_count q ≤ Max_buffers) :
    copy_count (gstep q ev) ≤ Max_buffers := by
  cases ev with
  | push c =>
      cases hb : push_blocked q c with
      | true => simpa [gstep, hb] using h
      | false =>
          cases c with
          | copy cc =>
              have hnb : ¬ Max_buffers ≤ copy_count q := by
                simpa [push_blocked] using hb
              have hlt : copy_count q < Max_buffers := Nat.not_le.mp hnb
              simp only [gstep, hb, if_false, Bool.false_eq_true,
                copy_count_append_copy]
              exact hlt
          | sync =>
              simp only [gstep, hb, if_false, Bool.false_eq_true]
              simpa [copy_count, List.filter_append, List.filter] using h
          | finish =>
              simp only [gstep, hb, if_false, Bool.false_eq_true]
              simpa [copy_count, List.filter_append, List.filter] using h
  | pop => exact Nat.le_trans (copy_count_tail_le q) h

lemma grun_count_from (evs : List QEvent) (q : List db_cmd_t)
    (h : copy_count q ≤ Max_buffers) :
    copy_count (evs.foldl gstep q) ≤ Max_buffers := by
  induction evs generalizing q with
  | nil => exact h
  | cons ev rest ih => exact ih _ (gstep_count_le q ev h)

/-- Claim C6: bounded-queue backpressure.  A Copy push blocks exactly while
the queue holds at least Max_buffers (10) Copy commands; Sync and Finish
pushes are never blocked by fullness yet are appended in push order like
any accepted push; in every guarded run the Copy count never exceeds
Max_buffers; and when the worker pops the front Copy command of a full
queue, exactly one blocked Copy push becomes acceptable — after it lands,
further Copy pushes are blocked again. -/
theorem queue_backpressure :
    (∀ (q : List db_cmd_t) (c : CopyCmd),
        push_blocked q (db_cmd_t.copy c) = true ↔ Max_buffers ≤ copy_count q) ∧
    (∀ q : List db_cmd_t,
        push_blocked q db_cmd_t.sync = false ∧
        push_blocked q db_cmd_t.finish = false) ∧
    (∀ (q : List db_cmd_t) (c : db_cmd_t), push_blocked q c = false →
        gstep q (QEvent.push c) = q ++ [c]) ∧
    (∀ evs : List QEvent, copy_count (grun evs) ≤ Max_buffers) ∧
    (∀ (c0 : CopyCmd) (rest : List db_cmd_t) (c1 c2 : CopyCmd),
        copy_count (db_cmd_t.copy c0 :: rest) = Max_buffers →
          gstep (db_cmd_t.copy c0 :: rest) QEvent.pop = rest ∧
          push_blocked rest (db_cmd_t.copy c1) = false ∧
          push_blocked (rest ++ [db_cmd_t.copy c1]) (db_cmd_t.copy c2) = true) := by
  refine ⟨fun q c => ?_, fun q => ⟨rfl, rfl⟩, fun q c h => ?_, fun evs => ?_,
    fun c0 rest c1 c2 h => ?_⟩
  · simp [push_blocked]
  · simp [gstep, h]
  · exact grun_count_from evs [] (Nat.zero_le _)
  · rw [copy_count_cons_copy] at h
    refine ⟨rfl, ?_, ?_⟩
    · simp only [push_blocked, decide_eq_false_iff_not]
      omega
    · simp only [push_blocked, decide_eq_true_eq, copy_count_append_copy]
      omega

/-- Witness for queue_backpressure: popping the front of a queue of ten
Copy commands lets exactly one further Copy push through. -/
theorem queue_backpressure_witness :
    push_blocked
        (List.replicate 9
          (db_cmd_t.copy ⟨⟨(r"t"), (r""), (r"osm_id")⟩, (r"b"), ⟨[]⟩⟩))
        (db_cmd_t.copy ⟨⟨(r"t"), (r""), (r"osm_id")⟩, (r"b"), ⟨[]⟩⟩) = false ∧
    push_blocked
        (List.replicate 9
          (db_cmd_t.copy ⟨⟨(r"t"), (r""), (r"osm_id")⟩, (r"b"), ⟨[]⟩⟩) ++
          [db_cmd_t.copy ⟨⟨(r"t"), (r""), (r"osm_id")⟩, (r"b"), ⟨[]⟩⟩])
        (db_cmd_t.copy ⟨⟨(r"t"), (r""), (r"osm_id")⟩, (r"b"), ⟨[]⟩⟩) = true :=
  ⟨(queue_backpressure.2.2.2.2
      ⟨⟨(r"t"), (r""), (r"osm_id")⟩, (r"b"), ⟨[]⟩⟩
      (List.replicate 9 (db_cmd_t.copy ⟨⟨(r"t"), (r""), (r"osm_id")⟩, (r"b"), ⟨[]⟩⟩))
      ⟨⟨(r"t"), (r""), (r"osm_id")⟩, (r"b"), ⟨[]⟩⟩
      ⟨⟨(r"t"), (r""), (r"osm_id")⟩, (r"b"), ⟨[]⟩⟩ (by decide)).2.1,
   (queue_backpressure.2.2.2.2
      ⟨⟨(r"t"), (r""), (r"osm_id")⟩, (r"b"), ⟨[]⟩⟩
      (List.replicate 9 (db_cmd_t.copy ⟨⟨(r"t"), (r""), (r"osm_id")⟩, (r"b"), ⟨[]⟩⟩))
      ⟨⟨(r"t"), (r""), (r"osm_id")⟩, (r"b"), ⟨[]⟩⟩
      ⟨⟨(r"t"), (r""), (r"osm_id")⟩, (r"b"), ⟨[]⟩⟩ (by decide)).2.2⟩

/-- Budgeted issue of connection calls used for failure injection: with
budget n, the first n calls succeed and the call numbered n raises.
Returns the calls actually made and the remaining budget, none meaning the
failure occurred inside this segment. -/
def take_ops : Nat → List ConnOp → List ConnOp × Option Nat
  | n, [] => ([], some n)
  | 0, _ :: _ => ([], none)
  | Nat.succ n, o :: rest =>
      let p := take_ops n rest
      (o :: p.1, p.2)

/-- Modelled from the spec: the worker loop with an injected failure on the
n-th connection call (0-based): the failing call performs nothing, the
worker records the error and terminates its loop, processing no further
command; Sync barriers reached before the failure are fulfilled as usual.
Returns the events and whether the error was recorded. -/
def run_fail (fl : Option db_target_descr_t) (n : Nat) :
    List db_cmd_t → List Event × Bool
  | [] => ([], false)
  | db_cmd_t.copy c :: rest =>
      let p := take_ops n (copy_segment fl c).1
      match p.2 with
      | none => (p.1.map Event.op, true)
      | some m =>
          let r := run_fail (copy_segment fl c).2 m rest
          (p.1.map Event.op ++ r.1, r.2)
  | db_cmd_t.sync :: rest =>
      let r := run_fail fl n rest
      (Event.sync_done :: r.1, r.2)
  | db_cmd_t.finish :: _ =>
      let p := take_ops n
        ((if fl.isSome then [ConnOp.end_copy] else []) ++ [ConnOp.disconnect])
      (p.1.map Event.op, p.2.isNone)

/-- Outcome a producer observes from add_buffer, sync_and_wait or finish. -/
inductive ProducerOutcome where
  | ok
  | error
deriving DecidableEq

/-- Modelled from the spec: a producer-facing call first checks the error
the worker recorded and surfaces it instead of blocking against the dead
worker. -/
def producer_call (errored : Bool) : ProducerOutcome :=
  if errored then ProducerOutcome.error else ProducerOutcome.ok

lemma take_ops_ge (ops : List ConnOp) (n : Nat) (h : ops.length ≤ n) :
    take_ops n ops = (ops, some (n - ops.length)) := by
  induction ops generalizing n with
  | nil => simp [take_ops]
  | cons o rest ih =>
      cases n with
      | zero => exact absurd h (by simp)
      | succ m =>
          have hm : rest.length ≤ m := by
            simpa [Nat.succ_le_succ_iff] using h
          simp [take_ops, ih m hm, Nat.succ_sub_succ]

lemma take_ops_lt (ops : List ConnOp) (n : Nat) (h : n < ops.length) :
    take_ops n ops = (ops.take n, none) := by
  induction ops generalizing n with
  | nil => exact absurd h (by simp)
  | cons o rest ih =>
      cases n with
      | zero => simp [take_ops]
      | succ m =>
          have hm : m < rest.length := by
            simpa [Nat.succ_lt_succ_iff] using h
          simp [take_ops, ih m hm]

/-- A failure striking inside the Copy command that follows pre cuts the
run there: the events are exactly those of pre followed by the truncated
segment of the failing command, and the error is recorded. -/
lemma run_fail_split (pre : List db_cmd_t) (c : CopyCmd) (post : List db_cmd_t)
    (fl : Option db_target_descr_t) (k : Nat) (h : db_cmd_t.finish ∉ pre)
    (hk : k < (copy_segment (run_from fl pre).inflight c).1.length) :
    run_fail fl ((conn_ops (run_from fl pre).trace).length + k)
        (pre ++ db_cmd_t.copy c :: post) =
      ((run_from fl pre).trace ++
        (((copy_segment (run_from fl pre).inflight c).1).take k).map Event.op,
       true) := by
  induction pre generalizing fl with
  | nil =>
      have hk' : k < ((copy_segment fl c).1).length := hk
      show run_fail fl (0 + k) (db_cmd_t.copy c :: post) = _
      rw [Nat.zero_add]
      simp [run_fail, take_ops_lt _ k hk', run_from]
  | cons cmd rest ih =>
      rw [List.mem_cons] at h
      push_neg at h
      cases cmd with
      | copy c0 =>
          have hk' : k <
              ((copy_segment (run_from (copy_segment fl c0).2 rest).inflight c).1).length := hk
          have hlen : ((copy_segment fl c0).1).length ≤
              ((copy_segment fl c0).1).length +
                ((conn_ops (run_from (copy_segment fl c0).2 rest).trace).length + k) :=
            Nat.le_add_right _ _
          show run_fail fl
              ((conn_ops (((copy_segment fl c0).1).map Event.op ++
                (run_from (copy_segment fl c0).2 rest).trace)).length + k) _ = _
          rw [conn_ops_append, conn_ops_map_op, List.length_append, Nat.add_assoc]
          simp only [run_fail, List.cons_append, List.append_eq]
          rw [take_ops_ge _ _ hlen]
          simp only [Nat.add_sub_cancel_left]
          rw [ih (copy_segment fl c0).2 h.2 hk']
          simp [run_from, List.append_assoc]
      | sync =>
          have hk' : k <
              ((copy_segment (run_from fl rest).inflight c).1).length := hk
          show run_fail fl
              ((conn_ops (Event.sync_done :: (run_from fl rest).trace)).length + k) _ = _
          simp only [conn_ops, run_fail, List.cons_append, List.append_eq]
          rw [ih fl h.2 hk']
          simp [run_from]
      | finish => exact absurd rfl h.1

/-- Claim C5: errors are fatal and total.  When the n-th connection call
fails inside the Copy command that follows the commands pre (n counts the
calls pre makes plus an offset inside the failing command's segment), the
worker's events are exactly those of pre plus the calls of the failing
command made before the failure — no later command is ever applied — the
worker terminates recording the error, and a producer-facing call that
would otherwise block surfaces the error. -/
theorem worker_error_fatal (pre post : List db_cmd_t) (c : CopyCmd) (k : Nat)
    (h : db_cmd_t.finish ∉ pre)
    (hk : k < (copy_segment (run_from none pre).inflight c).1.length) :
    (run_fail none ((conn_ops (run_from none pre).trace).length + k)
        (pre ++ db_cmd_t.copy c :: post)).1 =
      (run_from none pre).trace ++
        (((copy_segment (run_from none pre).inflight c).1).take k).map Event.op ∧
    (run_fail none ((conn_ops (run_from none pre).trace).length + k)
        (pre ++ db_cmd_t.copy c :: post)).2 = true ∧
    producer_call
        (run_fail none ((conn_ops (run_from none pre).trace).length + k)
          (pre ++ db_cmd_t.copy c :: post)).2 = ProducerOutcome.error := by
  have hs := run_fail_split pre c post none k h hk
  refine ⟨?_, ?_, ?_⟩
  · rw [hs]
  · rw [hs]
  · rw [hs]
    rfl

/-- Witness for worker_error_fatal: the spec scenario of a failure on the
buffer write of the second of five commands; the last three commands are
never applied and the error is surfaced. -/
theorem worker_error_fatal_witness :
    (run_fail none
        ((conn_ops (run_from none
          [db_cmd_t.copy ⟨⟨(r"t"), (r""), (r"osm_id")⟩, (r"b1"), ⟨[]⟩⟩]).trace).length + 0)
        ([db_cmd_t.copy ⟨⟨(r"t"), (r""), (r"osm_id")⟩, (r"b1"), ⟨[]⟩⟩] ++
          db_cmd_t.copy ⟨⟨(r"t"), (r""), (r"osm_id")⟩, (r"b2"), ⟨[]⟩⟩ ::
            [db_cmd_t.copy ⟨⟨(r"t"), (r""), (r"osm_id")⟩, (r"b3"), ⟨[]⟩⟩,
             db_cmd_t.copy ⟨⟨(r"t"), (r""), (r"osm_id")⟩, (r"b4"), ⟨[]⟩⟩,
             db_cmd_t.sync])).1 =
      (run_from none
          [db_cmd_t.copy ⟨⟨(r"t"), (r""), (r"osm_id")⟩, (r"b1"), ⟨[]⟩⟩]).trace ++
        (((copy_segment (run_from none
            [db_cmd_t.copy ⟨⟨(r"t"), (r""), (r"osm_id")⟩, (r"b1"), ⟨[]⟩⟩]).inflight
          ⟨⟨(r"t"), (r""), (r"osm_id")⟩, (r"b2"), ⟨[]⟩⟩).1).take 0).map Event.op ∧
    producer_call
        (run_fail none
          ((conn_ops (run_from none
            [db_cmd_t.copy ⟨⟨(r"t"), (r""), (r"osm_id")⟩, (r"b1"), ⟨[]⟩⟩]).trace).length + 0)
          ([db_cmd_t.copy ⟨⟨(r"t"), (r""), (r"osm_id")⟩, (r"b1"), ⟨[]⟩⟩] ++
            db_cmd_t.copy ⟨⟨(r"t"), (r""), (r"osm_id")⟩, (r"b2"), ⟨[]⟩⟩ ::
              [db_cmd_t.copy ⟨⟨(r"t"), (r""), (r"osm_id")⟩, (r"b3"), ⟨[]⟩⟩,
               db_cmd_t.copy ⟨⟨(r"t"), (r""), (r"osm_id")⟩, (r"b4"), ⟨[]⟩⟩,
               db_cmd_t.sync])).2 = ProducerOutcome.error :=
  ⟨(worker_error_fatal
      [db_cmd_t.copy ⟨⟨(r"t"), (r""), (r"osm_id")⟩, (r"b1"), ⟨[]⟩⟩]
      [db_cmd_t.copy ⟨⟨(r"t"), (r""), (r"osm_id")⟩, (r"b3"), ⟨[]⟩⟩,
       db_cmd_t.copy ⟨⟨(r"t"), (r""), (r"osm_id")⟩, (r"b4"), ⟨[]⟩⟩,
       db_cmd_t.sync]
      ⟨⟨(r"t"), (r""), (r"osm_id")⟩, (r"b2"), ⟨[]⟩⟩ 0 (by decide) (by decide)).1,
   (worker_error_fatal
      [db_cmd_t.copy ⟨⟨(r"t"), (r""), (r"osm_id")⟩, (r"b1"), ⟨[]⟩⟩]
      [db_cmd_t.copy ⟨⟨(r"t"), (r""), (r"osm_id")⟩, (r"b3"), ⟨[]⟩⟩,
       db_cmd_t.copy ⟨⟨(r"t"), (r""), (r"osm_id")⟩, (r"b4"), ⟨[]⟩⟩,
       db_cmd_t.sync]
      ⟨⟨(r"t"), (r""), (r"osm_id")⟩, (r"b2"), ⟨[]⟩⟩ 0 (by decide) (by decide)).2.2⟩

end DbCopy
